import Mathlib

/-!
Verification of the tmux-adapter live-session engine against its
natural-language specification.

This file gives a shallow embedding, in Lean, of the parts of the Go
source that the checked claims talk about:

* `internal/vt/screen.go` — the headless terminal screen: row rendering
  with SGR escapes, row-level diffing in `Write`, and baseline syncing in
  `Snapshot`.  The wrapped `vt10x` emulator is external to the repository,
  so it is abstracted as an `Emulator` record of pure functions.
* the pipe-pane manager (`PipePaneManager`): `Subscribe` / `Unsubscribe` /
  `StopAll` as a state machine over the manager map, the multiplexer's
  pipe-pane configuration and the tail files on disk, with the
  control-channel commands and channel closes reified as an effect trace.
* `internal/wsadapter`'s `Server.BroadcastToAgentSubscribers` together
  with `internal/wsbase/filters.go`'s `PassesFilter`.
* the adapter's command-line flag set from `main.go`.
* the registry's workdir filter, the control-channel convenience wrappers
  and the prompter's paste-payload selection.  The Go bodies of these are
  not part of the repository snapshot (only their tests are), so they are
  modelled from the specification, constrained by the repository's tests;
  each such definition says so in its doc comment.

Definitions come first, then the theorems settling the claims.
-/

namespace TmuxAdapter

/-! ## String helpers

Go's `strings.HasPrefix` / `strings.Contains` over explicit character
lists, so every proof obligation on concrete strings reduces by `decide`.
-/

/-- Character-list version of `strings.HasPrefix`. -/
def isPrefixList : List Char → List Char → Bool
  | [], _ => true
  | _ :: _, [] => false
  | a :: as, b :: bs => a == b && isPrefixList as bs

/-- `strIsPrefixOf p s` is Go's `strings.HasPrefix(s, p)`. -/
def strIsPrefixOf (p s : String) : Bool := isPrefixList p.data s.data

/-- Character-list version of `strings.Contains`. -/
def containsList (sub : List Char) : List Char → Bool
  | [] => sub.isEmpty
  | c :: t => isPrefixList sub (c :: t) || containsList sub t

/-- `containsStr s sub` is Go's `strings.Contains(s, sub)`. -/
def containsStr (s sub : String) : Bool := containsList sub.data s.data

/-- Drop the first `n` characters of a string (Go string slicing `s[n:]`
for ASCII paths). -/
def strDrop (s : String) (n : Nat) : String := ⟨s.data.drop n⟩

/-! ## Registry workdir filter (claim C4) -/

/-- Modelled from the spec: the Agent Registry's workdir filter
(`registry.go` is not in the source snapshot; its tests
`TestScanWorkDir*` in `internal/agents/registry_test.go` pin the three
concrete vectors).  Spec §4.3: "Workdir filter: empty = pass all.
Non-empty = pane's workDir equals the filter exactly, OR the filter +
path separator is a prefix of workDir." -/
def matchesWorkDirFilter (filter workDir : String) : Bool :=
  if filter = "" then true
  else if workDir == filter then true
  else strIsPrefixOf (filter ++ "/") workDir

/-! ## Adapter CLI flags (claim C9) -/

/-- One registered command-line flag: its name and default value. -/
structure FlagDef where
  name : String
  defVal : String
deriving DecidableEq, Repr

/-- `path/filepath.Join` for the two-component calls made by `main.go`
(no trailing separators or dot segments arise there). -/
def filepathJoin (a b : String) : String :=
  if a = "" then b else a ++ "/" ++ b

/-- The adapter's flag set as registered in `main.go` (`flag.String` /
`flag.Int` calls, lines 28-33), given the value of `$HOME`.  Integer
defaults are kept as their decimal strings. -/
def adapterFlags (home : String) : List FlagDef :=
  [⟨"gt-dir", filepathJoin home "gt"⟩,
   ⟨"port", "8080"⟩,
   ⟨"auth-token", ""⟩,
   ⟨"allowed-origins", "localhost:*"⟩,
   ⟨"debug-serve-dir", ""⟩]

/-! ## Control-channel convenience wrappers (claim C5)

`internal/tmux`'s command wrappers are not in the source snapshot (only
`commands_test.go` is).  They are modelled from spec §4.1 / §7:
"session/pane not found" and "unknown variable" / "nothing to capture"
are downgraded to `(empty, nil)` by the appropriate wrappers; all other
multiplexer errors propagate.  The multiplexer reply to one executed
command is `Except String String`: `.ok output` or `.error message`. -/

/-- Soft-error test used by `HasSession`: the multiplexer's
session-not-found message (the tests use "tmux: can't find session: S"). -/
def isSessionNotFoundErr (e : String) : Bool := containsStr e "find session"

/-- Soft-error test used by `ShowEnvironment`: the unknown-variable
message. -/
def isUnknownVariableErr (e : String) : Bool := containsStr e "unknown variable"

/-- Soft-error test used by `CapturePaneHistory`: the empty-history
message. -/
def isNothingToCaptureErr (e : String) : Bool := containsStr e "nothing to capture"

/-- Modelled from the spec: `ControlMode.HasSession` on the reply of its
`has-session` command.  A session-not-found error becomes `(false, nil)`;
any other error propagates (pinned by `TestHasSession_*`). -/
def HasSession (res : Except String String) : Except String Bool :=
  match res with
  | .ok _ => .ok true
  | .error e => if isSessionNotFoundErr e then .ok false else .error e

/-- The value part of a `KEY=value` environment reply line. -/
def envValue (out : String) : String :=
  match out.splitOn "=" with
  | [] => ""
  | _ :: rest => String.intercalate "=" rest

/-- Modelled from the spec: `ControlMode.ShowEnvironment` on the reply of
its `show-environment` command.  An unknown-variable error becomes
`("", nil)`; any other error (including session-not-found) propagates
(pinned by `TestShowEnvironment_*`). -/
def ShowEnvironment (res : Except String String) : Except String String :=
  match res with
  | .ok out => .ok (envValue out)
  | .error e => if isUnknownVariableErr e then .ok "" else .error e

/-- Modelled from the spec: `ControlMode.CapturePaneHistory` on the reply
of its `capture-pane` command.  A nothing-to-capture error becomes
`("", nil)`; any other error (including pane-not-found) propagates
(pinned by `TestCapturePaneHistory_*`). -/
def CapturePaneHistory (res : Except String String) : Except String String :=
  match res with
  | .ok out => .ok out
  | .error e => if isNothingToCaptureErr e then .ok "" else .error e

/-! ## File-upload paste payload (claim C7)

`internal/agentio`'s upload helpers are not in the source snapshot (only
their tests are); they are modelled from spec §4.5 step 4 and the
UTF-8-cleanness paragraph, constrained by the repository's tests
(`TestIsUTF8TextEdgeCases`, `TestIsTextLikeEdgeCases`,
`TestBuildServerPastePath`, `TestBuildPastePayload`).  File contents are
byte lists (`List Nat`, each element < 256). -/

/-- Inline-paste size cap: 256 KiB (spec §4.5 step 4). -/
def maxInlinePasteBytes : Nat := 256 * 1024

/-- UTF-8 continuation byte test (10xxxxxx). -/
def isContByte (b : Nat) : Bool := 0x80 ≤ b && b ≤ 0xBF

/-- RFC 3629 UTF-8 validity of a byte list (Go's `utf8.Valid`): rejects
continuation-only leads, overlong encodings, surrogates and values above
U+10FFFF. -/
def validUTF8 : List Nat → Bool
  | [] => true
  | b :: rest =>
    if b < 0x80 then validUTF8 rest
    else if b < 0xC2 then false
    else if b < 0xE0 then
      match rest with
      | b1 :: rest1 => isContByte b1 && validUTF8 rest1
      | [] => false
    else if b < 0xF0 then
      match rest with
      | b1 :: b2 :: rest2 =>
        (if b = 0xE0 then 0xA0 ≤ b1 && b1 ≤ 0xBF
         else if b = 0xED then 0x80 ≤ b1 && b1 ≤ 0x9F
         else isContByte b1) && isContByte b2 && validUTF8 rest2
      | _ => false
    else if b < 0xF5 then
      match rest with
      | b1 :: b2 :: b3 :: rest3 =>
        (if b = 0xF0 then 0x90 ≤ b1 && b1 ≤ 0xBF
         else if b = 0xF4 then 0x80 ≤ b1 && b1 ≤ 0x8F
         else isContByte b1) && isContByte b2 && isContByte b3 && validUTF8 rest3
      | _ => false
    else false

/-- Modelled from the spec: the prompter's UTF-8-cleanness check
(§4.5): "scan at most the first 4096 bytes; reject if any null or
control char (<0x20 except tab/newline/carriage-return) is present or
the bytes are not valid UTF-8."  Pinned by `TestIsUTF8TextEdgeCases`
(a control byte after the 4096-byte sample boundary is not seen). -/
def IsUTF8Text (data : List Nat) : Bool :=
  let sample := data.take 4096
  !(sample.any fun b => b < 0x20 && b ≠ 9 && b ≠ 10 && b ≠ 13) && validUTF8 sample

/-- The recognized text MIME types appearing in the spec and the tests:
any `text/*` plus the structured-text application types. -/
def isRecognizedTextMime (mime : String) : Bool :=
  strIsPrefixOf "text/" mime ||
    mime == "application/json" || mime == "application/xml" ||
    mime == "application/javascript"

/-- Modelled from the spec: the prompter's text-likeness test.  The spec
words it as "MIME in recognized text list OR arbitrary MIME with
UTF-8-clean content", but the repository's tests
(`TestIsTextLikeEdgeCases`: `text/plain` with bytes `00 01 02 03` is NOT
text-like, while `application/octet-stream` with clean text IS) require
UTF-8-clean content for every MIME type, so on the pinned behaviour the
MIME type does not further discriminate and the test is UTF-8-cleanness
of the sampled content. -/
def IsTextLike (_mimeType : String) (data : List Nat) : Bool :=
  IsUTF8Text data

/-- The text-likeness test exactly as the spec's words state it, kept for
comparison with the behaviour the repository's tests pin. -/
def specTextLike (mimeType : String) (data : List Nat) : Bool :=
  isRecognizedTextMime mimeType || IsUTF8Text data

/-- Modelled from the spec: `BuildServerPastePath` — the workdir-relative
form of a saved upload path: with a known workDir, a saved path inside it
is rewritten relative to it, otherwise (and with no workDir) the saved
path is returned unchanged.  Pinned by `TestBuildServerPastePath` and
`TestBuildServerPastePathDotDot`. -/
def BuildServerPastePath (workDir savedPath : String) : String :=
  if workDir = "" then savedPath
  else if strIsPrefixOf (workDir ++ "/") savedPath then
    strDrop savedPath (workDir.length + 1)
  else savedPath

/-- Go `[]byte(s)`: UTF-8 encoding of one scalar value. -/
def encodeCharUTF8 (n : Nat) : List Nat :=
  if n < 0x80 then [n]
  else if n < 0x800 then [0xC0 + n / 64, 0x80 + n % 64]
  else if n < 0x10000 then
    [0xE0 + n / 4096, 0x80 + (n / 64) % 64, 0x80 + n % 64]
  else
    [0xF0 + n / 262144, 0x80 + (n / 4096) % 64, 0x80 + (n / 64) % 64, 0x80 + n % 64]

/-- Go `[]byte(s)` for a whole string. -/
def strBytes (s : String) : List Nat :=
  s.data.foldr (fun c acc => encodeCharUTF8 c.toNat ++ acc) []

/-- Modelled from the spec: `BuildPastePayload` — chooses what is loaded
into the multiplexer paste buffer for an uploaded file: an `image/*`
upload pastes the absolute saved path, text-like content of at most
256 KiB pastes the bytes inline, anything else pastes the prepared paste
path.  Pasted paths carry a trailing space (pinned by
`TestBuildPastePayload`). -/
def BuildPastePayload (savedPath pastePath mimeType : String) (data : List Nat) :
    List Nat :=
  if strIsPrefixOf "image/" mimeType then strBytes (savedPath ++ " ")
  else if IsTextLike mimeType data && data.length ≤ maxInlinePasteBytes then data
  else strBytes (pastePath ++ " ")

/-- Modelled from the spec: the upload handler's paste-path preparation —
"paste a workdir-relative path if the saved path is inside workDir (as
`./relative`), else the absolute path" (§4.5 step 4; the handler itself
is not in the source snapshot). -/
def uploadPastePath (workDir savedPath : String) : String :=
  let rel := BuildServerPastePath workDir savedPath
  if rel = savedPath then savedPath else "./" ++ rel

/-- The full payload selection for one uploaded file: path preparation
composed with `BuildPastePayload`. -/
def uploadPastePayload (workDir savedPath mimeType : String) (data : List Nat) :
    List Nat :=
  BuildPastePayload savedPath (uploadPastePath workDir savedPath) mimeType data

/-! ## Terminal screen (`internal/vt/screen.go`, claims C2, C3, C8)

The wrapped `hinshun/vt10x` emulator is external to the repository; it is
abstracted as an `Emulator` record over an arbitrary terminal-state type:
`write` consumes raw bytes, `cell` reads the styled cell at a column/row,
and the cursor accessors mirror `term.Cursor()`. -/

/-- `vt10x.Color` is a `uint32`; modelled as `Nat`. -/
abbrev Color := Nat

/-- `vt10x.DefaultFG` (the out-of-band default marker above the 24-bit
color range). -/
def DefaultFG : Color := 2 ^ 24

/-- `vt10x.DefaultBG`. -/
def DefaultBG : Color := 2 ^ 24 + 1

/-- Glyph mode bit for bold (screen.go line 17). -/
def modeBold : Nat := 4

/-- Glyph mode bit for underline. -/
def modeUnderline : Nat := 2

/-- Glyph mode bit for italic. -/
def modeItalic : Nat := 16

/-- One styled cell of the grid (`vt10x.Glyph`): rune, foreground,
background, mode bits. -/
structure Cell where
  char : Char
  fg : Color
  bg : Color
  mode : Nat
deriving DecidableEq, Repr

instance : Inhabited Cell := ⟨⟨' ', DefaultFG, DefaultBG, 0⟩⟩

/-- The rune a cell displays: a zero rune renders as a space
(screen.go lines 122-124 and 196-199). -/
def displayChar (c : Cell) : Char :=
  if c.char = Char.ofNat 0 then ' ' else c.char

/-- The style fields `renderRow` tracks while scanning a row. -/
structure Style where
  fg : Color
  bg : Color
  bold : Bool
  italic : Bool
  underline : Bool
deriving DecidableEq, Repr

/-- The style state at the start of a row: default colors, no attributes. -/
def defaultStyle : Style := ⟨DefaultFG, DefaultBG, false, false, false⟩

/-- The style a cell asks for. -/
def cellStyle (c : Cell) : Style :=
  ⟨c.fg, c.bg, c.mode.land modeBold ≠ 0, c.mode.land modeItalic ≠ 0,
    c.mode.land modeUnderline ≠ 0⟩

/-- Decimal digits of a natural number as characters
(Go `fmt.Sprintf("%d", n)` for nonnegative values). -/
def decDigits (n : Nat) : List Char :=
  if h : n < 10 then [Char.ofNat (48 + n)]
  else decDigits (n / 10) ++ [Char.ofNat (48 + n % 10)]
decreasing_by exact Nat.div_lt_self (Nat.lt_of_lt_of_le (by omega) (Nat.le_of_not_lt h)) (by omega)

/-- Decimal rendering of a natural number. -/
def natStr (n : Nat) : String := ⟨decDigits n⟩

/-- `fgSGR` (screen.go lines 212-230): SGR parameter for a foreground
color — basic 30-37, bright 90-97, 256-color `38;5;N`, true-color
`38;2;R;G;B`. -/
def fgSGR (c : Color) : String :=
  if c = DefaultFG then "39"
  else if c < 8 then natStr (30 + c)
  else if c < 16 then natStr (90 + c - 8)
  else if c < 256 then "38;5;" ++ natStr c
  else "38;2;" ++ natStr ((c >>> 16) % 256) ++ ";" ++ natStr ((c >>> 8) % 256) ++
    ";" ++ natStr (c % 256)

/-- `bgSGR` (screen.go lines 233-251): SGR parameter for a background
color. -/
def bgSGR (c : Color) : String :=
  if c = DefaultBG then "49"
  else if c < 8 then natStr (40 + c)
  else if c < 16 then natStr (100 + c - 8)
  else if c < 256 then "48;5;" ++ natStr c
  else "48;2;" ++ natStr ((c >>> 16) % 256) ++ ";" ++ natStr ((c >>> 8) % 256) ++
    ";" ++ natStr (c % 256)

/-- The attribute-drop test of screen.go lines 153-155: any of
bold/italic/underline cleared, or a color returning to default. -/
def needReset (cur tgt : Style) : Bool :=
  (!tgt.bold && cur.bold) || (!tgt.italic && cur.italic) ||
  (!tgt.underline && cur.underline) ||
  (tgt.fg == DefaultFG && cur.fg != DefaultFG) ||
  (tgt.bg == DefaultBG && cur.bg != DefaultBG)

/-- The SGR parameter list emitted when the style changes from `cur` to
`tgt` (screen.go lines 150-180): a full reset first if an attribute is
dropped, then the parameters still needed relative to the (possibly
reset) current style. -/
def sgrParams (cur tgt : Style) : List String :=
  let base := if needReset cur tgt then defaultStyle else cur
  (if needReset cur tgt then ["0"] else []) ++
  (if tgt.bold && !base.bold then ["1"] else []) ++
  (if tgt.italic && !base.italic then ["3"] else []) ++
  (if tgt.underline && !base.underline then ["4"] else []) ++
  (if tgt.fg != base.fg then [fgSGR tgt.fg] else []) ++
  (if tgt.bg != base.bg then [bgSGR tgt.bg] else [])

/-- The escape character. -/
def escChar : Char := Char.ofNat 27

/-- `strings.Join(params, ";")`. -/
def joinParams : List String → String
  | [] => ""
  | [p] => p
  | p :: rest => p ++ ";" ++ joinParams rest

/-- The escape sequence written for a parameter list
(screen.go lines 182-186): `ESC [ params m`. -/
def styleEscape (params : List String) : String :=
  String.singleton escChar ++ "[" ++ joinParams params ++ "m"

/-- The trailing full reset `ESC [ 0 m` (screen.go line 205). -/
def resetStr : String := String.singleton escChar ++ "[0m"

/-- An SGR parameter string is escape-free: it contains neither the
terminating `m` nor the escape character, so stripping an emitted escape
sequence removes exactly that sequence. -/
def ParamOK (p : String) : Prop :=
  ∀ c ∈ p.data, c ≠ 'm' ∧ c ≠ escChar

/-- Non-trivial-content test of screen.go lines 119-131: a non-space
displayed rune, a non-default color, or any style bit. -/
def cellNonTrivial (c : Cell) : Bool :=
  displayChar c != ' ' || c.fg != DefaultFG || c.bg != DefaultBG ||
    c.mode.land (modeBold ||| modeItalic ||| modeUnderline) != 0

/-- The last column with non-trivial content, scanning from the right
(screen.go lines 118-131); `none` for an entirely empty row. -/
def lastNonTrivialCol (row : List Cell) : Option Nat :=
  (row.enum.reverse.find? fun p => cellNonTrivial p.2).map Prod.fst

/-- The cell scan of screen.go lines 143-201, over the cells up to the
last non-trivial column: returns the accumulated text and the final
(current-style, styled-flag) pair.  An escape is emitted exactly when the
cell's style differs from the current one and the parameter list is
nonempty; the styled flag records whether any escape was emitted. -/
def renderLoop (cur : Style) (styled : Bool) : List Cell → String × Style × Bool
  | [] => ("", cur, styled)
  | c :: rest =>
    let tgt := cellStyle c
    if tgt = cur then
      let r := renderLoop cur styled rest
      (String.singleton (displayChar c) ++ r.1, r.2)
    else
      let ps := sgrParams cur tgt
      let pre := if ps = [] then "" else styleEscape ps
      let r := renderLoop tgt (styled || ps ≠ []) rest
      (pre ++ String.singleton (displayChar c) ++ r.1, r.2)

/-- `Screen.renderRow` (screen.go lines 117-209) on a row of cells: empty
string for an all-trivial row, otherwise the scan up to the last
non-trivial column followed by a full reset if the row ended with any
style active. -/
def renderRow (row : List Cell) : String :=
  match lastNonTrivialCol row with
  | none => ""
  | some lastCol =>
    let r := renderLoop defaultStyle false (row.take (lastCol + 1))
    if r.2.2 && r.2.1 ≠ defaultStyle then r.1 ++ resetStr else r.1

/-- Skip to just after the first `m` (the `stripANSI` helper of the vt
tests): `some rest` when an `m` exists, `none` otherwise. -/
def dropToM : List Char → Option (List Char)
  | [] => none
  | c :: t => if c = 'm' then some t else dropToM t

/-- ANSI-escape stripping over characters, mirroring the repository's own
test helper `stripANSI` (`screen_test.go`): an `ESC [` pair swallows
everything through the next `m`; an `ESC` without a following `[` or
without a closing `m` passes through. -/
def stripANSIChars : List Char → List Char
  | [] => []
  | c :: t =>
    if c = escChar ∧ t.head? = some '[' then
      match h : dropToM t.tail with
      | some rest => stripANSIChars rest
      | none => c :: stripANSIChars t
    else c :: stripANSIChars t
termination_by l => l.length
decreasing_by
  · have key : ∀ (l : List Char) r, dropToM l = some r → r.length < l.length := by
      intro l
      induction l with
      | nil => intro r hr; simp [dropToM] at hr
      | cons a t2 ih =>
        intro r hr
        by_cases ha : a = 'm'
        · simp [dropToM, ha] at hr
          simp [← hr]
        · simp [dropToM, ha] at hr
          exact Nat.lt_trans (ih r hr) (by simp)
    have hl := key t.tail _ h
    have ht : t.tail.length ≤ t.length := by cases t <;> simp
    simp only [List.length_cons]
    omega
  · simp
  · simp

/-- What one `ScreenUpdate` carries (screen.go lines 21-26): the changed
rows as an index/text association list in scan order, and the cursor. -/
structure ScreenUpdate where
  rows : List (Nat × String)
  cursorRow : Nat
  cursorCol : Nat
deriving DecidableEq, Repr

/-- What one `ScreenSnapshot` carries (screen.go lines 28-35). -/
structure ScreenSnapshot where
  rows : List (Nat × String)
  cols : Nat
  numRows : Nat
  cursorRow : Nat
  cursorCol : Nat
deriving DecidableEq, Repr

/-- The external `vt10x` emulator, abstracted: raw-byte consumption, the
cell grid, and the cursor. -/
structure Emulator (σ : Type) where
  write : σ → List Nat → σ
  cell : σ → Nat → Nat → Cell
  cursorX : σ → Nat
  cursorY : σ → Nat

/-- `Screen` (screen.go lines 39-45): the wrapped terminal, dimensions,
and the cached previously-rendered rows used for diffing. -/
structure Screen (σ : Type) where
  term : σ
  cols : Nat
  rows : Nat
  prevRows : List String

/-- `NewScreen` (screen.go lines 48-55). -/
def NewScreen (E : Emulator σ) (t : σ) (cols rows : Nat) : Screen σ :=
  let _ := E
  ⟨t, cols, rows, List.replicate rows ""⟩

/-- Row `y` of the emulator's grid as a cell list. -/
def termRow (E : Emulator σ) (t : σ) (cols y : Nat) : List Cell :=
  (List.range cols).map fun x => E.cell t x y

/-- The diff loop of `Screen.Write` (screen.go lines 74-80) over a list
of row indices: render each row, and where it differs from the cached
baseline collect it and update the baseline in place. -/
def scanRows (render : Nat → String) : List Nat → List String →
    List (Nat × String) × List String
  | [], prev => ([], prev)
  | y :: ys, prev =>
    let row := render y
    if row ≠ prev.getD y "" then
      let rest := scanRows render ys (prev.set y row)
      ((y, row) :: rest.1, rest.2)
    else scanRows render ys prev

/-- The snapshot loop of `Screen.Snapshot` (screen.go lines 105-109):
render every row, collect it, and sync the baseline. -/
def snapRows (render : Nat → String) : List Nat → List String →
    List (Nat × String) × List String
  | [], prev => ([], prev)
  | y :: ys, prev =>
    let row := render y
    let rest := snapRows render ys (prev.set y row)
    ((y, row) :: rest.1, rest.2)

/-- `Screen.Write` (screen.go lines 59-87): feed the bytes to the
emulator, diff every row against the baseline, return the changed rows
(or `none` when no row changed) together with the cursor, and keep the
updated screen. -/
def Screen.Write (E : Emulator σ) (s : Screen σ) (data : List Nat) :
    Screen σ × Option ScreenUpdate :=
  let t := E.write s.term data
  let res := scanRows (fun y => renderRow (termRow E t s.cols y))
    (List.range s.rows) s.prevRows
  ({ s with term := t, prevRows := res.2 },
   if res.1 = [] then none else some ⟨res.1, E.cursorY t, E.cursorX t⟩)

/-- `Screen.Snapshot` (screen.go lines 90-113): render every row, return
all of them with dimensions and cursor, and sync the diff baseline. -/
def Screen.Snapshot (E : Emulator σ) (s : Screen σ) :
    Screen σ × ScreenSnapshot :=
  let res := snapRows (fun y => renderRow (termRow E s.term s.cols y))
    (List.range s.rows) s.prevRows
  ({ s with prevRows := res.2 },
   ⟨res.1, s.cols, s.rows, E.cursorY s.term, E.cursorX s.term⟩)

/-! ## Pipe-pane manager (claims C1, C10)

`PipePaneManager.Subscribe` / `Unsubscribe` / `StopAll` as a state
machine.  The state carries the manager's stream map (session name to
subscriber-channel set; channels are identified by `Nat`), together with
the external world the manager drives: the set of sessions whose
pipe-pane is active, and the tail files on disk.  Every externally
visible action (control-channel command, channel close, file create or
remove, tailer-context cancel) is reified in an effect trace. -/

/-- One externally visible action of the pipe manager. -/
inductive PMEffect where
  | createFile (path : String)
  | removeFile (path : String)
  | startCmd (session : String) (shellCmd : String)
  | stopCmd (session : String)
  | cancelTailer (session : String)
  | closeChan (ch : Nat)
deriving DecidableEq, Repr

/-- Is an effect a control-channel command (`pipe-pane` start or stop)? -/
def PMEffect.isCtrlCmd : PMEffect → Bool
  | .startCmd _ _ => true
  | .stopCmd _ => true
  | _ => false

/-- The manager's state plus the external world it drives. -/
structure PMState where
  streams : List (String × List Nat)
  pipeActive : List String
  files : List String
deriving DecidableEq, Repr

/-- The empty manager of `NewPipePaneManager`, with no pipe active and no
tail file on disk. -/
def initPM : PMState := ⟨[], [], []⟩

/-- The tail-file path for a session (pipepane.go line 58). -/
def pipeFilePath (session : String) : String :=
  "/tmp/adapter-" ++ session ++ ".pipe"

/-- Lookup in the stream map. -/
def lookupSubs (streams : List (String × List Nat)) (s : String) :
    Option (List Nat) :=
  (streams.find? fun p => p.1 == s).map Prod.snd

/-- Replace the subscriber set of an existing stream. -/
def setSubs (streams : List (String × List Nat)) (s : String)
    (subs : List Nat) : List (String × List Nat) :=
  streams.map fun p => if p.1 == s then (s, subs) else p

/-- `delete(pm.streams, session)`. -/
def removeStream (streams : List (String × List Nat)) (s : String) :
    List (String × List Nat) :=
  streams.filter fun p => p.1 != s

/-- Go's set-insert `subscribers[ch] = struct{}{}`. -/
def insertChan (ch : Nat) (subs : List Nat) : List Nat :=
  if ch ∈ subs then subs else ch :: subs

/-- O_CREATE: ensure the file exists. -/
def ensureFile (path : String) (files : List String) : List String :=
  if path ∈ files then files else path :: files

/-- The effects of `stopStream` (pipepane.go lines 131-143): cancel the
tailer context, issue the `pipe-pane` stop command, close every
remaining subscriber channel, remove the tail file. -/
def stopStreamEffects (session : String) (subs : List Nat) : List PMEffect :=
  [.cancelTailer session, .stopCmd session] ++ subs.map PMEffect.closeChan ++
    [.removeFile (pipeFilePath session)]

/-- The state change of `stopStream` followed by the caller's map delete:
the stream goes away, the pipe-pane is deactivated, the tail file is
removed from disk. -/
def teardownState (st : PMState) (session : String) : PMState :=
  ⟨removeStream st.streams session, st.pipeActive.erase session,
   st.files.erase (pipeFilePath session)⟩

/-- `PipePaneManager.Subscribe` (pipepane.go lines 42-90).  `ch` is the
fresh channel allocated for the caller; `startOk` is whether the
`pipe-pane -o` command succeeds.  Returns the new state, the effect
trace, and whether the call succeeded. -/
def subscribe (st : PMState) (session : String) (ch : Nat) (startOk : Bool) :
    PMState × List PMEffect × Bool :=
  match lookupSubs st.streams session with
  | some subs =>
    ({ st with streams := setSubs st.streams session (insertChan ch subs) },
     [], true)
  | none =>
    let path := pipeFilePath session
    if startOk then
      (⟨(session, [ch]) :: st.streams, session :: st.pipeActive,
        ensureFile path st.files⟩,
       [.createFile path, .startCmd session ("cat >> " ++ path)], true)
    else
      ({ st with files := (ensureFile path st.files).erase path },
       [.createFile path, .removeFile path], false)

/-- `PipePaneManager.Unsubscribe` (pipepane.go lines 93-118): no stream
means return at once; otherwise remove and close the channel if it is
subscribed, and if no subscriber remains run `stopStream` and delete the
stream. -/
def unsubscribe (st : PMState) (session : String) (ch : Nat) :
    PMState × List PMEffect :=
  match lookupSubs st.streams session with
  | none => (st, [])
  | some subs =>
    if ch ∈ subs then
      let subs' := subs.erase ch
      if subs'.length = 0 then
        (teardownState st session,
         .closeChan ch :: stopStreamEffects session subs')
      else
        ({ st with streams := setSubs st.streams session subs' },
         [.closeChan ch])
    else
      if subs.length = 0 then
        (teardownState st session, stopStreamEffects session subs)
      else (st, [])

/-- `PipePaneManager.StopAll` (pipepane.go lines 121-129): tear down
every stream. -/
def stopAllState (st : PMState) : PMState :=
  st.streams.foldl (fun acc p => teardownState acc p.1) st

/-- The states the pipe manager can actually be in: everything generated
from the empty manager by its three operations. -/
inductive ReachablePM : PMState → Prop where
  | init : ReachablePM initPM
  | sub {st} (session : String) (ch : Nat) (startOk : Bool) :
      ReachablePM st → ReachablePM (subscribe st session ch startOk).1
  | unsub {st} (session : String) (ch : Nat) :
      ReachablePM st → ReachablePM (unsubscribe st session ch).1
  | stopAll {st} : ReachablePM st → ReachablePM (stopAllState st)

/-- The structural invariant of reachable pipe-manager states: stream
keys and the active-pipe set are duplicate-free, a stream always has at
least one subscriber, and the pipe-pane is active for exactly the
sessions holding a stream. -/
def PMInv (st : PMState) : Prop :=
  (st.streams.map Prod.fst).Nodup ∧
  st.pipeActive.Nodup ∧
  st.files.Nodup ∧
  (∀ s subs, lookupSubs st.streams s = some subs → subs ≠ []) ∧
  (∀ s, s ∈ st.pipeActive ↔ (lookupSubs st.streams s).isSome)

/-! ## Lifecycle broadcast (`wsadapter`, claim C6) -/

/-- The per-client session-name filters of `wsbase/filters.go`: an
optional compiled include regex and exclude regex, abstracted as their
match functions. -/
structure SessionFilters where
  includeFilter : Option (String → Bool)
  excludeFilter : Option (String → Bool)

/-- `PassesFilter` (filters.go lines 30-38): a missing include filter
passes everything, a present one must match; a present exclude filter
must not match. -/
def PassesFilter (name : String) (f : SessionFilters) : Bool :=
  if (match f.includeFilter with | some m => !(m name) | none => false) then false
  else if (match f.excludeFilter with | some m => m name | none => false) then false
  else true

/-- What the broadcast reads from one client under its lock
(server.go `BroadcastToAgentSubscribers`): the lifecycle-subscription
flag and the two filters. -/
structure WSClient where
  agentSub : Bool
  filters : SessionFilters

/-- A message sent to a client by the broadcast. -/
inductive BMsg where
  | count (totalAgents : Nat)
  | lifecycle (msg : String)
deriving DecidableEq, Repr

/-- `Server.BroadcastToAgentSubscribers` (wsadapter server, lines
77-115): the `agents-count` message exists only when the event is not
`agent-updated`; each subscribed client receives it unconditionally,
followed by the lifecycle event itself only if the agent's name passes
that client's filters.  Returns, per client in order, the list of
messages sent to it. -/
def BroadcastToAgentSubscribers (clients : List WSClient)
    (registryCount : Nat) (agentName eventType msg : String) :
    List (List BMsg) :=
  let countData : Option Nat :=
    if eventType ≠ "agent-updated" then some registryCount else none
  clients.map fun c =>
    if !c.agentSub then []
    else
      (match countData with | some n => [BMsg.count n] | none => []) ++
      (if PassesFilter agentName c.filters then [BMsg.lifecycle msg] else [])

/-! ## Spec predicates and concrete fixtures

The properties the claims assert, written as `Prop`-valued definitions so
that each claim's theorem and its witness state the same thing, plus the
concrete emulator/state fixtures the witnesses instantiate. -/

/-- The rows of an optional update: none means no rows. -/
def updRows : Option ScreenUpdate → List (Nat × String)
  | none => []
  | some u => u.rows

/-- Claim C2's property for one `Write` call: the update is `none` iff no
rendered row differs from the baseline; the update rows are exactly the
(index, new text) pairs where the fresh rendering differs from the
baseline; and afterwards the baseline holds the fresh rendering of every
row. -/
def WriteDiffSpec (E : Emulator σ) (s : Screen σ) (data : List Nat) : Prop :=
  ((Screen.Write E s data).2 = none ↔
    ∀ y < s.rows,
      renderRow (termRow E (E.write s.term data) s.cols y) = s.prevRows.getD y "") ∧
  (∀ y r, (y, r) ∈ updRows (Screen.Write E s data).2 ↔
    (y < s.rows ∧ r = renderRow (termRow E (E.write s.term data) s.cols y) ∧
      renderRow (termRow E (E.write s.term data) s.cols y) ≠ s.prevRows.getD y "")) ∧
  (∀ y < s.rows,
    (Screen.Write E s data).1.prevRows.getD y "" =
      renderRow (termRow E (E.write s.term data) s.cols y))

/-- Claim C3's property: two successive snapshots with no intervening
write are identical, and after a snapshot any write that leaves every
rendered row unchanged produces no update. -/
def SnapshotSpec (E : Emulator σ) (s : Screen σ) : Prop :=
  (Screen.Snapshot E s).2 = (Screen.Snapshot E (Screen.Snapshot E s).1).2 ∧
  ∀ data,
    (∀ y < s.rows,
      renderRow (termRow E (E.write s.term data) s.cols y) =
        renderRow (termRow E s.term s.cols y)) →
    (Screen.Write E (Screen.Snapshot E s).1 data).2 = none

/-- Claim C8's property for one rendered row ending at column `k`: the
visible text is exactly the displayed runes of columns `0..k`; a style
change that drops an attribute emits the full reset followed by exactly
the parameters that re-apply the new style from scratch; and the trailing
full reset is appended exactly when the last scanned cell's style is
non-default. -/
def RenderRowSpec (row : List Cell) (k : Nat) : Prop :=
  stripANSIChars (renderRow row).data = (row.take (k + 1)).map displayChar ∧
  (∀ cur tgt, needReset cur tgt = true →
    sgrParams cur tgt = "0" :: sgrParams defaultStyle tgt) ∧
  renderRow row = (renderLoop defaultStyle false (row.take (k + 1))).1 ++
    (if cellStyle (row.getD k default) ≠ defaultStyle then resetStr else "")

/-- Claim C1's per-state property: the pipe-pane is active for exactly
the sessions holding a stream with at least one subscriber; a subscribe
with no existing stream creates the stream and issues the start command;
an unsubscribe removing the last subscriber closes the channel, cancels
the tailer, issues the stop command, removes the tail file and deletes
the stream. -/
def PipeLifecycleSpec (st : PMState) : Prop :=
  (∀ s, s ∈ st.pipeActive ↔
    ∃ subs, lookupSubs st.streams s = some subs ∧ subs ≠ []) ∧
  (∀ s ch, lookupSubs st.streams s = none →
    (subscribe st s ch true).2.1 =
      [.createFile (pipeFilePath s), .startCmd s ("cat >> " ++ pipeFilePath s)] ∧
    lookupSubs (subscribe st s ch true).1.streams s = some [ch] ∧
    s ∈ (subscribe st s ch true).1.pipeActive) ∧
  (∀ s ch subs, lookupSubs st.streams s = some subs → ch ∈ subs →
    subs.erase ch = [] →
    (unsubscribe st s ch).2 =
      [.closeChan ch, .cancelTailer s, .stopCmd s,
       .removeFile (pipeFilePath s)] ∧
    lookupSubs (unsubscribe st s ch).1.streams s = none ∧
    s ∉ (unsubscribe st s ch).1.pipeActive ∧
    pipeFilePath s ∉ (unsubscribe st s ch).1.files)

/-- Claim C10's per-state property: an unsubscribe for a session with no
stream, or with a channel that is not subscribed, returns the state
unchanged and performs no effect at all. -/
def UnsubscribeFrameSpec (st : PMState) : Prop :=
  ∀ s ch,
    (lookupSubs st.streams s = none → unsubscribe st s ch = (st, [])) ∧
    (∀ subs, lookupSubs st.streams s = some subs → ch ∉ subs →
      unsubscribe st s ch = (st, []))

/-- Claim C6's property for one client of a broadcast: the agents-count
message reaches it exactly when it holds the lifecycle subscription, for
added and removed events, regardless of its filters; never for updated
events; and the lifecycle event itself reaches it exactly when it is
subscribed and the agent's name passes its include/exclude filters. -/
def BroadcastSpecAt (clients : List WSClient) (registryCount : Nat)
    (agentName msg : String) (i : Nat) (c : WSClient) : Prop :=
  (∀ eventType, eventType = "agent-added" ∨ eventType = "agent-removed" →
    (BMsg.count registryCount ∈
      (BroadcastToAgentSubscribers clients registryCount agentName eventType
        msg).getD i [] ↔ c.agentSub = true)) ∧
  BMsg.count registryCount ∉
    (BroadcastToAgentSubscribers clients registryCount agentName
      "agent-updated" msg).getD i [] ∧
  (∀ eventType, BMsg.lifecycle msg ∈
    (BroadcastToAgentSubscribers clients registryCount agentName eventType
      msg).getD i [] ↔
    (c.agentSub = true ∧ PassesFilter agentName c.filters = true))

/-- A concrete emulator for the witnesses: the state is the byte history;
row 0 shows the written bytes as unstyled runes and the cursor sits after
them. -/
def testEmulator : Emulator (List Nat) where
  write := fun t d => t ++ d
  cell := fun t x y =>
    if y = 0 ∧ x < t.length then ⟨Char.ofNat (t.getD x 32), DefaultFG, DefaultBG, 0⟩
    else default
  cursorX := fun t => t.length
  cursorY := fun _ => 0

/-- A fresh 4x2 test screen. -/
def testScreen : Screen (List Nat) := NewScreen testEmulator [] 4 2

/-- A red-foreground cell fixture. -/
def redCell (c : Char) : Cell := ⟨c, 1, DefaultBG, 0⟩

/-- An unstyled cell fixture. -/
def plainCell (c : Char) : Cell := ⟨c, DefaultFG, DefaultBG, 0⟩

/-- The witness row for claim C8: a styled rune then a plain rune. -/
def wRow : List Cell := [redCell 'h', plainCell 'i']

/-- A reachable pipe-manager state with one stream for session `s`
holding the single subscriber channel 1. -/
def pmSt1 : PMState := (subscribe initPM "s" 1 true).1

/-- The witness client list for claim C6: a subscribed client whose
include filter matches only `"a"`, a subscribed unfiltered client, and an
unsubscribed client. -/
def wClients : List WSClient :=
  [⟨true, ⟨some (fun n => n == "a"), none⟩⟩,
   ⟨true, ⟨none, none⟩⟩,
   ⟨false, ⟨none, none⟩⟩]

/-! ## Theorems -/

/-- Prefix tests bound the length. -/
theorem isPrefixList_length {p s : List Char} (h : isPrefixList p s = true) :
    p.length ≤ s.length := by
  induction p generalizing s with
  | nil => simp
  | cons a as ih =>
    cases s with
    | nil => simp [isPrefixList] at h
    | cons b bs =>
      simp only [isPrefixList, Bool.and_eq_true] at h
      simpa using ih h.2

/-- C4: the registry's workdir filter passes a session exactly when the
filter is empty, the pane's workDir equals the filter exactly, or the
filter plus the path separator is a prefix of the workDir; in particular
with filter `/tmp/gt`, workDirs `/tmp/gt` and `/tmp/gt/work` pass while
`/tmp/gt-other` does not. -/
theorem workdir_filter_characterization :
    (∀ filter workDir, matchesWorkDirFilter filter workDir = true ↔
      (filter = "" ∨ workDir = filter ∨
        strIsPrefixOf (filter ++ "/") workDir = true)) ∧
    matchesWorkDirFilter "/tmp/gt" "/tmp/gt" = true ∧
    matchesWorkDirFilter "/tmp/gt" "/tmp/gt/work" = true ∧
    matchesWorkDirFilter "/tmp/gt" "/tmp/gt-other" = false := by
  refine ⟨?_, by decide, by decide, by decide⟩
  intro filter workDir
  unfold matchesWorkDirFilter
  by_cases h1 : filter = ""
  · simp [h1]
  · by_cases h2 : workDir = filter
    · simp [h1, h2]
    · simp [h1, h2]

/-- C9 counterexample: the adapter's `main.go` registers no flag named
`work-dir` at all (its workdir flag is `gt-dir`), already with a concrete
`$HOME`. -/
theorem work_dir_flag_counterexample :
    ((adapterFlags "/home/user").any fun f => f.name == "work-dir") = false := by
  decide

/-- C9 (amended): the adapter's workdir flag is named `gt-dir` and
defaults to `filepath.Join($HOME, "gt")`, which is never the empty
string; no `work-dir` flag exists. -/
theorem gt_dir_flag_default :
    ∀ home, (FlagDef.mk "gt-dir" (filepathJoin home "gt")) ∈ adapterFlags home ∧
      ((adapterFlags home).any fun f => f.name == "work-dir") = false ∧
      filepathJoin home "gt" ≠ "" := by
  intro home
  refine ⟨by simp [adapterFlags], by simp [adapterFlags], ?_⟩
  unfold filepathJoin
  by_cases h : home = ""
  · simp [h]
  · simp only [h, if_false]
    intro hc
    have hlen := congrArg String.length hc
    rw [String.length_append, String.length_append] at hlen
    have h2 : ("gt" : String).length = 2 := by decide
    have h0 : ("" : String).length = 0 := by decide
    rw [h2, h0] at hlen
    omega

/-- C5: each control-channel wrapper downgrades exactly its own soft
multiplexer error to an empty successful result — session-not-found for
`HasSession`, unknown-variable for `ShowEnvironment`,
nothing-to-capture for `CapturePaneHistory` — and returns every other
multiplexer error to the caller unchanged. -/
theorem control_wrappers_soft_errors :
    ∀ e out : String,
      HasSession (Except.ok out) = Except.ok true ∧
      (HasSession (Except.error e) = Except.ok false ↔
        isSessionNotFoundErr e = true) ∧
      (HasSession (Except.error e) = Except.error e ↔
        isSessionNotFoundErr e = false) ∧
      ShowEnvironment (Except.ok out) = Except.ok (envValue out) ∧
      (ShowEnvironment (Except.error e) = Except.ok "" ↔
        isUnknownVariableErr e = true) ∧
      (ShowEnvironment (Except.error e) = Except.error e ↔
        isUnknownVariableErr e = false) ∧
      CapturePaneHistory (Except.ok out) = Except.ok out ∧
      (CapturePaneHistory (Except.error e) = Except.ok "" ↔
        isNothingToCaptureErr e = true) ∧
      (CapturePaneHistory (Except.error e) = Except.error e ↔
        isNothingToCaptureErr e = false) := by
  intro e out
  refine ⟨rfl, ?_, ?_, rfl, ?_, ?_, rfl, ?_, ?_⟩ <;>
    first
    | (by_cases h : isSessionNotFoundErr e <;> simp [HasSession, h])
    | (by_cases h : isUnknownVariableErr e <;> simp [ShowEnvironment, h])
    | (by_cases h : isNothingToCaptureErr e <;> simp [CapturePaneHistory, h])

/-- C7 counterexample: `text/plain` content that is not UTF-8-clean and
well under the 256 KiB cap — the claim's wording (recognized text MIME
suffices for text-likeness) predicts the bytes are pasted inline, but the
behaviour pinned by the repository's tests pastes the workdir-relative
path instead. -/
theorem paste_inline_claim_counterexample :
    specTextLike "text/plain" [0, 1, 2, 3] = true ∧
    ([0, 1, 2, 3] : List Nat).length ≤ maxInlinePasteBytes ∧
    strIsPrefixOf "image/" "text/plain" = false ∧
    uploadPastePayload "/srv/agent" "/srv/agent/.tmux-adapter/uploads/data.bin"
      "text/plain" [0, 1, 2, 3] ≠ [0, 1, 2, 3] := by
  exact ⟨by decide, by decide, by decide, by decide⟩

/-- C7 (amended): the paste payload for an uploaded file is chosen by:
`image/*` MIME pastes the absolute saved path; UTF-8-clean content (the
text-likeness test pinned by the repository's tests, required for every
MIME type) of at most 256 KiB pastes the bytes inline; otherwise the
workdir-relative `./relative` path is pasted when the saved path lies
inside the workDir, else the absolute path.  Pasted paths carry a
trailing space. -/
theorem paste_payload_selection :
    ∀ (workDir savedPath mimeType : String) (data : List Nat),
      (strIsPrefixOf "image/" mimeType = true →
        uploadPastePayload workDir savedPath mimeType data =
          strBytes (savedPath ++ " ")) ∧
      (strIsPrefixOf "image/" mimeType = false → IsUTF8Text data = true →
        data.length ≤ maxInlinePasteBytes →
        uploadPastePayload workDir savedPath mimeType data = data) ∧
      (strIsPrefixOf "image/" mimeType = false →
        ¬(IsUTF8Text data = true ∧ data.length ≤ maxInlinePasteBytes) →
        uploadPastePayload workDir savedPath mimeType data =
          strBytes (uploadPastePath workDir savedPath ++ " ")) ∧
      (workDir ≠ "" → strIsPrefixOf (workDir ++ "/") savedPath = true →
        uploadPastePath workDir savedPath =
          "./" ++ strDrop savedPath (workDir.length + 1)) ∧
      (strIsPrefixOf (workDir ++ "/") savedPath = false →
        uploadPastePath workDir savedPath = savedPath) := by
  intro workDir savedPath mimeType data
  refine ⟨?_, ?_, ?_, ?_, ?_⟩
  · intro himg
    simp [uploadPastePayload, BuildPastePayload, himg]
  · intro himg hutf hlen
    simp [uploadPastePayload, BuildPastePayload, IsTextLike, himg, hutf, hlen]
  · intro himg hnot
    have hcond : (IsTextLike mimeType data && decide
        (data.length ≤ maxInlinePasteBytes)) = false := by
      rcases Bool.eq_false_or_eq_true (IsTextLike mimeType data) with ht | hf
      · have : ¬ data.length ≤ maxInlinePasteBytes := fun hle =>
          hnot ⟨by simpa [IsTextLike] using ht, hle⟩
        simp [this]
      · simp [hf]
    simp [uploadPastePayload, BuildPastePayload, himg, hcond]
  · intro hw hpre
    have hple := isPrefixList_length (p := (workDir ++ "/").data)
      (s := savedPath.data) hpre
    have hsp : workDir.length + 1 ≤ savedPath.length := by
      have h1 : (workDir ++ "/").data.length = (workDir ++ "/").length := rfl
      have h2 : savedPath.data.length = savedPath.length := rfl
      rw [h1, h2, String.length_append] at hple
      have hs1 : ("/" : String).length = 1 := by decide
      rw [hs1] at hple
      exact hple
    have hdl : (strDrop savedPath (workDir.length + 1)).length =
        savedPath.length - (workDir.length + 1) := by
      show (savedPath.data.drop (workDir.length + 1)).length =
        savedPath.data.length - (workDir.length + 1)
      simp [List.length_drop]
    have hne : strDrop savedPath (workDir.length + 1) ≠ savedPath := by
      intro hcontra
      have hcl := congrArg String.length hcontra
      rw [hdl] at hcl
      omega
    simp [uploadPastePath, BuildServerPastePath, hw, hpre, hne]
  · intro hpre
    by_cases hw : workDir = ""
    · simp [uploadPastePath, BuildServerPastePath, hw]
    · simp [uploadPastePath, BuildServerPastePath, hw, hpre]

/-- Witness for the amended C7 theorem: the three payload shapes at
concrete uploads — an image pastes its absolute path, small clean text
pastes inline, and small binary content pastes the `./relative` path. -/
theorem paste_payload_selection_witness :
    uploadPastePayload "/srv/agent" "/srv/agent/up/i.png" "image/png" [1, 2] =
      strBytes ("/srv/agent/up/i.png" ++ " ") ∧
    uploadPastePayload "/srv/agent" "/srv/agent/up/t.txt" "text/plain"
      [104, 105] = [104, 105] ∧
    uploadPastePayload "/srv/agent" "/srv/agent/up/d.bin"
      "application/octet-stream" [0, 1] = strBytes ("./up/d.bin" ++ " ") := by
  refine ⟨?_, ?_, ?_⟩
  · exact (paste_payload_selection "/srv/agent" "/srv/agent/up/i.png"
      "image/png" [1, 2]).1 (by decide)
  · exact (paste_payload_selection "/srv/agent" "/srv/agent/up/t.txt"
      "text/plain" [104, 105]).2.1 (by decide) (by decide) (by decide)
  · have h := (paste_payload_selection "/srv/agent" "/srv/agent/up/d.bin"
      "application/octet-stream" [0, 1]).2.2.1 (by decide) (by decide)
    rw [h]
    decide

/-- C6: in a registry lifecycle broadcast, the agents-count message is
sent to every client with the lifecycle-subscription flag, regardless of
its include/exclude regex filters, for added and removed events but never
for updated ones, while the lifecycle event itself is sent to a
subscribed client only if the agent's name passes that client's filters. -/
theorem broadcast_count_and_filter (clients : List WSClient)
    (registryCount : Nat) (agentName msg : String) (i : Nat) (c : WSClient)
    (hc : clients[i]? = some c) :
    BroadcastSpecAt clients registryCount agentName msg i c := by
  have hmap : ∀ (g : WSClient → List BMsg),
      (List.map g clients).getD i [] = g c := by
    intro g
    simp [List.getD, List.getElem?_map, hc]
  refine ⟨?_, ?_, ?_⟩
  · intro ty hty
    have hne : ty ≠ "agent-updated" := by
      rcases hty with h | h <;> subst h <;> decide
    simp only [BroadcastToAgentSubscribers, hmap]
    by_cases hsub : c.agentSub
    · by_cases hp : PassesFilter agentName c.filters <;>
        simp [hsub, hne, hp]
    · simp [hsub]
  · simp only [BroadcastToAgentSubscribers, hmap]
    by_cases hsub : c.agentSub
    · by_cases hp : PassesFilter agentName c.filters <;> simp [hsub, hp]
    · simp [hsub]
  · intro ty
    simp only [BroadcastToAgentSubscribers, hmap]
    by_cases hsub : c.agentSub
    · by_cases hp : PassesFilter agentName c.filters <;>
        by_cases hup : ty = "agent-updated" <;> simp [hsub, hp, hup]
    · simp [hsub]

/-- Witness for C6: the broadcast property evaluated for the subscribed,
include-filtered first client of the concrete client list. -/
theorem broadcast_count_and_filter_witness :
    wClients[0]? = some ⟨true, ⟨some (fun n => n == "a"), none⟩⟩ ∧
    BroadcastSpecAt wClients 2 "b" "M" 0
      ⟨true, ⟨some (fun n => n == "a"), none⟩⟩ :=
  ⟨rfl, broadcast_count_and_filter wClients 2 "b" "M" 0
    ⟨true, ⟨some (fun n => n == "a"), none⟩⟩ rfl⟩

/-! ### Pipe-manager stream-map lemmas -/

theorem lookupSubs_cons (k : String) (v : List Nat)
    (t : List (String × List Nat)) (s : String) :
    lookupSubs ((k, v) :: t) s = if k = s then some v else lookupSubs t s := by
  by_cases h : k = s <;> simp [lookupSubs, List.find?_cons, h]

theorem setSubs_cons_eq (k : String) (w v : List Nat)
    (t : List (String × List Nat)) :
    setSubs ((k, w) :: t) k v = (k, v) :: setSubs t k v := by
  simp [setSubs]

theorem setSubs_cons_ne (k s : String) (w v : List Nat)
    (t : List (String × List Nat)) (h : k ≠ s) :
    setSubs ((k, w) :: t) s v = (k, w) :: setSubs t s v := by
  simp [setSubs, h]

theorem removeStream_cons_eq (k : String) (w : List Nat)
    (t : List (String × List Nat)) :
    removeStream ((k, w) :: t) k = removeStream t k := by
  simp [removeStream]

theorem removeStream_cons_ne (k s : String) (w : List Nat)
    (t : List (String × List Nat)) (h : k ≠ s) :
    removeStream ((k, w) :: t) s = (k, w) :: removeStream t s := by
  simp [removeStream, h]

theorem lookupSubs_eq_none_iff (streams : List (String × List Nat))
    (s : String) :
    lookupSubs streams s = none ↔ s ∉ streams.map Prod.fst := by
  induction streams with
  | nil => simp [lookupSubs]
  | cons p t ih =>
    obtain ⟨k, v⟩ := p
    rw [lookupSubs_cons]
    by_cases h : k = s
    · subst h
      simp
    · have h' : s ≠ k := fun hn => h hn.symm
      simp [h, h', ih]

theorem lookupSubs_setSubs_self (streams : List (String × List Nat))
    (s : String) (v : List Nat) (h : (lookupSubs streams s).isSome) :
    lookupSubs (setSubs streams s v) s = some v := by
  induction streams with
  | nil => simp [lookupSubs] at h
  | cons p t ih =>
    obtain ⟨k, w⟩ := p
    by_cases hk : k = s
    · subst hk
      rw [setSubs_cons_eq, lookupSubs_cons, if_pos rfl]
    · rw [lookupSubs_cons, if_neg hk] at h
      rw [setSubs_cons_ne _ _ _ _ _ hk, lookupSubs_cons, if_neg hk]
      exact ih h

theorem lookupSubs_setSubs_ne (streams : List (String × List Nat))
    (s : String) (v : List Nat) (s' : String) (h : s' ≠ s) :
    lookupSubs (setSubs streams s v) s' = lookupSubs streams s' := by
  induction streams with
  | nil => simp [setSubs, lookupSubs]
  | cons p t ih =>
    obtain ⟨k, w⟩ := p
    by_cases hk : k = s
    · subst hk
      have hks : k ≠ s' := fun hn => h (hn.symm)
      rw [setSubs_cons_eq, lookupSubs_cons, lookupSubs_cons,
        if_neg hks, if_neg hks]
      exact ih
    · rw [setSubs_cons_ne _ _ _ _ _ hk, lookupSubs_cons, lookupSubs_cons]
      by_cases hks : k = s'
      · simp [hks]
      · rw [if_neg hks, if_neg hks]
        exact ih

theorem setSubs_keys (streams : List (String × List Nat)) (s : String)
    (v : List Nat) :
    (setSubs streams s v).map Prod.fst = streams.map Prod.fst := by
  induction streams with
  | nil => simp [setSubs]
  | cons p t ih =>
    obtain ⟨k, w⟩ := p
    by_cases hk : k = s
    · subst hk
      rw [setSubs_cons_eq]
      simpa using ih
    · rw [setSubs_cons_ne _ _ _ _ _ hk]
      simpa using ih

theorem lookupSubs_removeStream_self (streams : List (String × List Nat))
    (s : String) :
    lookupSubs (removeStream streams s) s = none := by
  induction streams with
  | nil => simp [removeStream, lookupSubs]
  | cons p t ih =>
    obtain ⟨k, w⟩ := p
    by_cases hk : k = s
    · subst hk
      rw [removeStream_cons_eq]
      exact ih
    · rw [removeStream_cons_ne _ _ _ _ hk, lookupSubs_cons, if_neg hk]
      exact ih

theorem lookupSubs_removeStream_ne (streams : List (String × List Nat))
    (s s' : String) (h : s' ≠ s) :
    lookupSubs (removeStream streams s) s' = lookupSubs streams s' := by
  induction streams with
  | nil => simp [removeStream]
  | cons p t ih =>
    obtain ⟨k, w⟩ := p
    by_cases hk : k = s
    · subst hk
      have hks : k ≠ s' := fun hn => h (hn.symm)
      rw [removeStream_cons_eq, lookupSubs_cons, if_neg hks]
      exact ih
    · rw [removeStream_cons_ne _ _ _ _ hk, lookupSubs_cons, lookupSubs_cons]
      by_cases hks : k = s'
      · simp [hks]
      · rw [if_neg hks, if_neg hks]
        exact ih

theorem removeStream_keys_sublist (streams : List (String × List Nat))
    (s : String) :
    List.Sublist ((removeStream streams s).map Prod.fst)
      (streams.map Prod.fst) :=
  (List.filter_sublist streams).map Prod.fst

theorem insertChan_ne_nil (ch : Nat) (subs : List Nat) (h : subs ≠ []) :
    insertChan ch subs ≠ [] := by
  unfold insertChan
  by_cases hm : ch ∈ subs <;> simp [hm, h]

theorem ensureFile_nodup (path : String) (files : List String)
    (h : files.Nodup) : (ensureFile path files).Nodup := by
  unfold ensureFile
  by_cases hm : path ∈ files <;> simp [hm, h]

/-- Tearing one session down preserves the pipe-manager invariant. -/
theorem pminv_teardown {st : PMState} (h : PMInv st) (s : String) :
    PMInv (teardownState st s) := by
  obtain ⟨hk, hpa, hf, hne, hiff⟩ := h
  simp only [PMInv, teardownState]
  refine ⟨List.Nodup.sublist (removeStream_keys_sublist st.streams s) hk,
    hpa.erase _, hf.erase _, ?_, ?_⟩
  · intro s' subs hl
    by_cases hs : s' = s
    · rw [hs, lookupSubs_removeStream_self] at hl
      exact absurd hl (by simp)
    · rw [lookupSubs_removeStream_ne _ _ _ hs] at hl
      exact hne s' subs hl
  · intro s'
    by_cases hs : s' = s
    · subst hs
      simp [lookupSubs_removeStream_self, hpa.not_mem_erase]
    · rw [lookupSubs_removeStream_ne _ _ _ hs, List.mem_erase_of_ne hs]
      exact hiff s'

/-- `subscribe` preserves the pipe-manager invariant. -/
theorem pminv_subscribe {st : PMState} (h : PMInv st) (s : String) (ch : Nat)
    (ok : Bool) : PMInv (subscribe st s ch ok).1 := by
  obtain ⟨hk, hpa, hf, hne, hiff⟩ := h
  cases hl : lookupSubs st.streams s with
  | some subs =>
    have hst : (subscribe st s ch ok).1 =
        { st with streams := setSubs st.streams s (insertChan ch subs) } := by
      simp [subscribe, hl]
    rw [hst]
    refine ⟨by simpa [setSubs_keys] using hk, hpa, hf, ?_, ?_⟩
    · intro s' subs' hl'
      simp only at hl'
      by_cases hs : s' = s
      · subst hs
        rw [lookupSubs_setSubs_self _ _ _ (by simp [hl])] at hl'
        cases hl'
        exact insertChan_ne_nil ch subs (hne s' subs hl)
      · rw [lookupSubs_setSubs_ne _ _ _ _ hs] at hl'
        exact hne s' subs' hl'
    · intro s'
      simp only
      by_cases hs : s' = s
      · subst hs
        rw [lookupSubs_setSubs_self _ _ _ (by simp [hl])]
        simpa [hl] using hiff s'
      · rw [lookupSubs_setSubs_ne _ _ _ _ hs]
        exact hiff s'
  | none =>
    cases ok with
    | true =>
      have hnotkey : s ∉ st.streams.map Prod.fst :=
        (lookupSubs_eq_none_iff _ _).mp hl
      have hnotpa : s ∉ st.pipeActive := by
        simpa [hl] using (hiff s)
      have hst : (subscribe st s ch true).1 =
          ⟨(s, [ch]) :: st.streams, s :: st.pipeActive,
            ensureFile (pipeFilePath s) st.files⟩ := by
        simp [subscribe, hl]
      rw [hst]
      refine ⟨?_, ?_, ?_, ?_, ?_⟩
      · simpa using List.Nodup.cons hnotkey hk
      · exact List.Nodup.cons hnotpa hpa
      · exact ensureFile_nodup _ _ hf
      · intro s' subs' hl'
        simp only at hl'
        rw [lookupSubs_cons] at hl'
        by_cases hs : s = s'
        · rw [if_pos hs] at hl'
          cases hl'
          simp
        · rw [if_neg hs] at hl'
          exact hne s' subs' hl'
      · intro s'
        simp only [lookupSubs_cons]
        by_cases hs : s = s'
        · simp [hs]
        · have hs' : s' ≠ s := fun hn => hs hn.symm
          simpa [hs, hs'] using hiff s'
    | false =>
      have hst : (subscribe st s ch false).1 =
          { st with
            files := (ensureFile (pipeFilePath s) st.files).erase (pipeFilePath s) } := by
        simp [subscribe, hl]
      rw [hst]
      exact ⟨hk, hpa, (ensureFile_nodup _ _ hf).erase _, hne, hiff⟩

/-- `unsubscribe` preserves the pipe-manager invariant. -/
theorem pminv_unsubscribe {st : PMState} (h : PMInv st) (s : String)
    (ch : Nat) : PMInv (unsubscribe st s ch).1 := by
  obtain ⟨hk, hpa, hf, hne, hiff⟩ := h
  cases hl : lookupSubs st.streams s with
  | none =>
    have hst : (unsubscribe st s ch).1 = st := by simp [unsubscribe, hl]
    rw [hst]
    exact ⟨hk, hpa, hf, hne, hiff⟩
  | some subs =>
    by_cases hch : ch ∈ subs
    · by_cases hz : (subs.erase ch).length = 0
      · have hz' : subs.length - 1 = 0 := by
          rwa [List.length_erase_of_mem hch] at hz
        have hst : (unsubscribe st s ch).1 = teardownState st s := by
          simp [unsubscribe, hl, hch, hz, hz']
        rw [hst]
        exact pminv_teardown ⟨hk, hpa, hf, hne, hiff⟩ s
      · have hz' : ¬ subs.length - 1 = 0 := by
          rwa [List.length_erase_of_mem hch] at hz
        have hst : (unsubscribe st s ch).1 =
            { st with streams := setSubs st.streams s (subs.erase ch) } := by
          simp [unsubscribe, hl, hch, hz, hz']
        rw [hst]
        refine ⟨by simpa [setSubs_keys] using hk, hpa, hf, ?_, ?_⟩
        · intro s' subs' hl'
          simp only at hl'
          by_cases hs : s' = s
          · subst hs
            rw [lookupSubs_setSubs_self _ _ _ (by simp [hl])] at hl'
            cases hl'
            intro hcontra
            rw [hcontra] at hz
            simp at hz
          · rw [lookupSubs_setSubs_ne _ _ _ _ hs] at hl'
            exact hne s' subs' hl'
        · intro s'
          simp only
          by_cases hs : s' = s
          · subst hs
            rw [lookupSubs_setSubs_self _ _ _ (by simp [hl])]
            simpa [hl] using hiff s'
          · rw [lookupSubs_setSubs_ne _ _ _ _ hs]
            exact hiff s'
    · by_cases hz : subs.length = 0
      · have hst : (unsubscribe st s ch).1 = teardownState st s := by
          simp [unsubscribe, hl, hch, hz]
        rw [hst]
        exact pminv_teardown ⟨hk, hpa, hf, hne, hiff⟩ s
      · have hst : (unsubscribe st s ch).1 = st := by
          simp [unsubscribe, hl, hch, hz]
        rw [hst]
        exact ⟨hk, hpa, hf, hne, hiff⟩

/-- Folding teardowns preserves the pipe-manager invariant. -/
theorem pminv_fold_teardown (l : List (String × List Nat)) :
    ∀ acc : PMState, PMInv acc →
      PMInv (l.foldl (fun a p => teardownState a p.1) acc) := by
  induction l with
  | nil => intro acc h; simpa using h
  | cons p t ih =>
    intro acc h
    simpa using ih (teardownState acc p.1) (pminv_teardown h p.1)

/-- Every reachable pipe-manager state satisfies the invariant. -/
theorem reach_pminv {st : PMState} (h : ReachablePM st) : PMInv st := by
  induction h with
  | init =>
    refine ⟨by simp [initPM], by simp [initPM], by simp [initPM], ?_, ?_⟩
    · intro s subs hl
      simp [initPM, lookupSubs] at hl
    · intro s
      simp [initPM, lookupSubs]
  | sub session ch startOk _ ih => exact pminv_subscribe ih session ch startOk
  | unsub session ch _ ih => exact pminv_unsubscribe ih session ch
  | stopAll _ ih => exact pminv_fold_teardown _ _ ih

/-- C1: at every reachable pipe-manager state, a pipe-pane is active for
session S exactly when the manager holds a stream for S with at least one
subscriber; the first Subscribe issues the pipe-pane start command and
creates the stream; the Unsubscribe removing the last subscriber closes
the channel, cancels the tailer, issues the pipe-pane stop command,
deletes the tail file and drops the stream. -/
theorem pipe_manager_lifecycle (st : PMState) (hr : ReachablePM st) :
    PipeLifecycleSpec st := by
  obtain ⟨hk, hpa, hf, hne, hiff⟩ := reach_pminv hr
  refine ⟨?_, ?_, ?_⟩
  · intro s
    rw [hiff s]
    constructor
    · intro hs
      cases hl : lookupSubs st.streams s with
      | none => rw [hl] at hs; simp at hs
      | some subs => exact ⟨subs, rfl, hne s subs hl⟩
    · rintro ⟨subs, hl, _⟩
      simp [hl]
  · intro s ch hl
    refine ⟨by simp [subscribe, hl], ?_, by simp [subscribe, hl]⟩
    have hst : (subscribe st s ch true).1.streams = (s, [ch]) :: st.streams := by
      simp [subscribe, hl]
    rw [hst, lookupSubs_cons, if_pos rfl]
  · intro s ch subs hl hch herase
    have hz : (subs.erase ch).length = 0 := by simp [herase]
    have hz' : subs.length - 1 = 0 := by
      rwa [List.length_erase_of_mem hch] at hz
    refine ⟨?_, ?_, ?_, ?_⟩
    · simp [unsubscribe, hl, hch, hz, hz', stopStreamEffects, herase]
    · have hst : (unsubscribe st s ch).1.streams =
          removeStream st.streams s := by
        simp [unsubscribe, hl, hch, hz, hz', teardownState]
      rw [hst]
      exact lookupSubs_removeStream_self _ _
    · have hst : (unsubscribe st s ch).1.pipeActive =
          st.pipeActive.erase s := by
        simp [unsubscribe, hl, hch, hz, hz', teardownState]
      rw [hst]
      exact hpa.not_mem_erase
    · have hst : (unsubscribe st s ch).1.files =
          st.files.erase (pipeFilePath s) := by
        simp [unsubscribe, hl, hch, hz, hz', teardownState]
      rw [hst]
      exact hf.not_mem_erase

/-- Witness for C1: the lifecycle property at the concrete reachable
state holding one stream for session `s` with subscriber channel 1. -/
theorem pipe_manager_lifecycle_witness : PipeLifecycleSpec pmSt1 :=
  pipe_manager_lifecycle pmSt1 (ReachablePM.sub "s" 1 true ReachablePM.init)

/-- C10: at every reachable pipe-manager state, an Unsubscribe for a
session with no active stream, or with a channel that is not in that
session's subscriber set, returns the state completely unchanged and
performs no effect (in particular no control-channel command is issued
and the tail files and pipe-pane configuration are untouched). -/
theorem unsubscribe_noop_frame (st : PMState) (hr : ReachablePM st) :
    UnsubscribeFrameSpec st := by
  obtain ⟨hk, hpa, hf, hne, hiff⟩ := reach_pminv hr
  intro s ch
  constructor
  · intro hl
    simp [unsubscribe, hl]
  · intro subs hl hch
    have hz : subs.length ≠ 0 := by
      intro hcontra
      exact hne s subs hl (List.eq_nil_of_length_eq_zero hcontra)
    simp [unsubscribe, hl, hch, hz]

/-- Witness for C10: the frame property at the concrete reachable state
holding one stream for session `s` with subscriber channel 1. -/
theorem unsubscribe_noop_frame_witness : UnsubscribeFrameSpec pmSt1 :=
  unsubscribe_noop_frame pmSt1 (ReachablePM.sub "s" 1 true ReachablePM.init)

/-! ### Screen diff-loop lemmas -/

theorem list_getD_set_self (l : List String) (n : Nat) (v : String)
    (h : n < l.length) : (l.set n v).getD n "" = v := by
  simp [List.getD, List.getElem?_set_self, h]

theorem list_getD_set_ne (l : List String) (n m : Nat) (v : String)
    (h : n ≠ m) : (l.set n v).getD m "" = l.getD m "" := by
  simp [List.getD, List.getElem?_set_ne h]

/-- Full characterization of the `Write` diff loop: over duplicate-free
in-bound indices it collects exactly the rows whose fresh rendering
differs from the baseline, and afterwards the baseline holds the fresh
rendering at every visited index. -/
theorem scanRows_spec (render : Nat → String) :
    ∀ (ys : List Nat) (prev : List String), ys.Nodup →
      (∀ y ∈ ys, y < prev.length) →
      (scanRows render ys prev).1 = ys.filterMap
        (fun y => if render y ≠ prev.getD y "" then some (y, render y) else none) ∧
      (∀ m, (scanRows render ys prev).2.getD m "" =
        if m ∈ ys then render m else prev.getD m "") ∧
      (scanRows render ys prev).2.length = prev.length := by
  intro ys
  induction ys with
  | nil =>
    intro prev _ _
    exact ⟨rfl, fun m => by simp [scanRows], rfl⟩
  | cons y t ih =>
    intro prev hnd hbd
    have hynt : y ∉ t := (List.nodup_cons.mp hnd).1
    have htnd : t.Nodup := (List.nodup_cons.mp hnd).2
    have hylt : y < prev.length := hbd y (List.mem_cons_self y t)
    by_cases hch : render y ≠ prev.getD y ""
    · have hbd' : ∀ z ∈ t, z < (prev.set y (render y)).length := by
        intro z hz
        simpa using hbd z (List.mem_cons_of_mem y hz)
      obtain ⟨ihf, ihs, ihl⟩ := ih (prev.set y (render y)) htnd hbd'
      have hstep : scanRows render (y :: t) prev =
          ((y, render y) :: (scanRows render t (prev.set y (render y))).1,
           (scanRows render t (prev.set y (render y))).2) := by
        simp only [scanRows, if_pos hch]
      rw [hstep]
      refine ⟨?_, ?_, by simpa using ihl⟩
      · have hcong : t.filterMap (fun z =>
            if render z ≠ (prev.set y (render y)).getD z "" then
              some (z, render z) else none) =
            t.filterMap (fun z =>
              if render z ≠ prev.getD z "" then some (z, render z) else none) := by
          apply List.filterMap_congr
          intro z hz
          rw [list_getD_set_ne _ _ _ _ (fun hn => hynt (by rw [hn]; exact hz))]
        simp only [List.filterMap_cons, if_pos hch, ihf, hcong]
      · intro m
        rw [ihs m]
        by_cases hm : m = y
        · subst hm
          simp [hynt, List.getElem?_set_self, hylt]
        · have hmy : y ≠ m := fun hn => hm hn.symm
          rw [list_getD_set_ne _ _ _ _ hmy]
          by_cases hmt : m ∈ t <;> simp [hmt, hm]
    · have heq : render y = prev.getD y "" := not_not.mp hch
      have hstep : scanRows render (y :: t) prev = scanRows render t prev := by
        simp only [scanRows, if_neg hch]
      rw [hstep]
      obtain ⟨ihf, ihs, ihl⟩ := ih prev htnd
        (fun z hz => hbd z (List.mem_cons_of_mem y hz))
      refine ⟨?_, ?_, ihl⟩
      · simp only [List.filterMap_cons, if_neg hch, ihf]
      · intro m
        rw [ihs m]
        by_cases hm : m = y
        · subst hm
          by_cases hmt : m ∈ t <;> simp [hmt, heq]
        · by_cases hmt : m ∈ t <;> simp [hmt, hm]

/-- The snapshot loop collects every visited row with its rendering. -/
theorem snapRows_fst (render : Nat → String) :
    ∀ (ys : List Nat) (prev : List String),
      (snapRows render ys prev).1 = ys.map (fun y => (y, render y)) := by
  intro ys
  induction ys with
  | nil => intro prev; rfl
  | cons y t ih =>
    intro prev
    simp only [snapRows, List.map_cons, ih]

/-- After the snapshot loop the baseline holds the rendering at every
visited index and keeps its length. -/
theorem snapRows_snd (render : Nat → String) :
    ∀ (ys : List Nat) (prev : List String), ys.Nodup →
      (∀ y ∈ ys, y < prev.length) →
      (∀ m, (snapRows render ys prev).2.getD m "" =
        if m ∈ ys then render m else prev.getD m "") ∧
      (snapRows render ys prev).2.length = prev.length := by
  intro ys
  induction ys with
  | nil =>
    intro prev _ _
    exact ⟨fun m => by simp [snapRows], rfl⟩
  | cons y t ih =>
    intro prev hnd hbd
    have hynt : y ∉ t := (List.nodup_cons.mp hnd).1
    have htnd : t.Nodup := (List.nodup_cons.mp hnd).2
    have hylt : y < prev.length := hbd y (List.mem_cons_self y t)
    have hbd' : ∀ z ∈ t, z < (prev.set y (render y)).length := by
      intro z hz
      simpa using hbd z (List.mem_cons_of_mem y hz)
    obtain ⟨ihs, ihl⟩ := ih (prev.set y (render y)) htnd hbd'
    have hstep : (snapRows render (y :: t) prev).2 =
        (snapRows render t (prev.set y (render y))).2 := by
      simp only [snapRows]
    refine ⟨?_, by rw [hstep]; simpa using ihl⟩
    intro m
    rw [hstep, ihs m]
    by_cases hm : m = y
    · subst hm
      simp [hynt, List.getElem?_set_self, hylt]
    · have hmy : y ≠ m := fun hn => hm hn.symm
      rw [list_getD_set_ne _ _ _ _ hmy]
      by_cases hmt : m ∈ t <;> simp [hmt, hm]

/-- The update rows of a `Write` are the diff loop's collected rows, in
both the changed and the unchanged case. -/
theorem updRows_write (E : Emulator σ) (s : Screen σ) (data : List Nat) :
    updRows (Screen.Write E s data).2 =
      (scanRows (fun y => renderRow (termRow E (E.write s.term data) s.cols y))
        (List.range s.rows) s.prevRows).1 := by
  by_cases hres : (scanRows
      (fun y => renderRow (termRow E (E.write s.term data) s.cols y))
      (List.range s.rows) s.prevRows).1 = [] <;>
    simp [Screen.Write, updRows, hres]

/-- A `Write` returns no update exactly when every freshly rendered row
equals the cached baseline. -/
theorem write_none_iff (E : Emulator σ) (s : Screen σ) (data : List Nat)
    (hlen : s.prevRows.length = s.rows) :
    (Screen.Write E s data).2 = none ↔
      ∀ y < s.rows,
        renderRow (termRow E (E.write s.term data) s.cols y) =
          s.prevRows.getD y "" := by
  obtain ⟨hfst, _, _⟩ := scanRows_spec
    (fun y => renderRow (termRow E (E.write s.term data) s.cols y))
    (List.range s.rows) s.prevRows (List.nodup_range _)
    (fun y hy => by rw [hlen]; exact List.mem_range.mp hy)
  have hw : (Screen.Write E s data).2 = none ↔
      (scanRows (fun y => renderRow (termRow E (E.write s.term data) s.cols y))
        (List.range s.rows) s.prevRows).1 = [] := by
    by_cases hres : (scanRows
        (fun y => renderRow (termRow E (E.write s.term data) s.cols y))
        (List.range s.rows) s.prevRows).1 = [] <;>
      simp [Screen.Write, hres]
  rw [hw, hfst, List.filterMap_eq_nil_iff]
  constructor
  · intro hall y hy
    have hy' := hall y (List.mem_range.mpr hy)
    by_contra hne
    rw [if_pos hne] at hy'
    exact Option.noConfusion hy'
  · intro hall y hy
    simp [hall y (List.mem_range.mp hy)]

/-- C2: a `Write` returns exactly the row indices whose fresh rendering
differs from the cached baseline, with the baseline then synced to the
fresh rendering; when no row differs it returns nothing. -/
theorem screen_write_diff (E : Emulator σ) (s : Screen σ) (data : List Nat)
    (hlen : s.prevRows.length = s.rows) : WriteDiffSpec E s data := by
  obtain ⟨hfst, hsnd, _⟩ := scanRows_spec
    (fun y => renderRow (termRow E (E.write s.term data) s.cols y))
    (List.range s.rows) s.prevRows (List.nodup_range _)
    (fun y hy => by rw [hlen]; exact List.mem_range.mp hy)
  refine ⟨write_none_iff E s data hlen, ?_, ?_⟩
  · intro y r
    rw [updRows_write, hfst, List.mem_filterMap]
    constructor
    · rintro ⟨z, hz, hfz⟩
      by_cases hch : renderRow (termRow E (E.write s.term data) s.cols z) ≠
          s.prevRows.getD z ""
      · rw [if_pos hch] at hfz
        cases hfz
        exact ⟨List.mem_range.mp hz, rfl, hch⟩
      · rw [if_neg hch] at hfz
        cases hfz
    · rintro ⟨hy, hr, hch⟩
      subst hr
      exact ⟨y, List.mem_range.mpr hy, if_pos hch⟩
  · intro y hy
    have hprev : (Screen.Write E s data).1.prevRows =
        (scanRows (fun y => renderRow (termRow E (E.write s.term data) s.cols y))
          (List.range s.rows) s.prevRows).2 := by
      simp [Screen.Write]
    rw [hprev, hsnd y, if_pos (List.mem_range.mpr hy)]

/-- Witness for C2: the diff property of a concrete write of two bytes
onto the fresh 4x2 test screen. -/
theorem screen_write_diff_witness :
    testScreen.prevRows.length = testScreen.rows ∧
    WriteDiffSpec testEmulator testScreen [104, 105] :=
  ⟨rfl, screen_write_diff testEmulator testScreen [104, 105] rfl⟩

/-- C3: two successive snapshots with no intervening write are identical,
and because a snapshot syncs the diff baseline, a write that leaves every
rendered row unchanged immediately afterwards returns nothing. -/
theorem snapshot_idempotent_sync (E : Emulator σ) (s : Screen σ)
    (hlen : s.prevRows.length = s.rows) : SnapshotSpec E s := by
  constructor
  · simp [Screen.Snapshot, snapRows_fst]
  · intro data hpres
    obtain ⟨hsnd, hslen⟩ := snapRows_snd
      (fun y => renderRow (termRow E s.term s.cols y))
      (List.range s.rows) s.prevRows (List.nodup_range _)
      (fun y hy => by rw [hlen]; exact List.mem_range.mp hy)
    have hs1term : (Screen.Snapshot E s).1.term = s.term := by
      simp [Screen.Snapshot]
    have hs1rows : (Screen.Snapshot E s).1.rows = s.rows := by
      simp [Screen.Snapshot]
    have hs1cols : (Screen.Snapshot E s).1.cols = s.cols := by
      simp [Screen.Snapshot]
    have hs1prev : (Screen.Snapshot E s).1.prevRows =
        (snapRows (fun y => renderRow (termRow E s.term s.cols y))
          (List.range s.rows) s.prevRows).2 := by
      simp [Screen.Snapshot]
    rw [write_none_iff E (Screen.Snapshot E s).1 data
      (by rw [hs1prev, hs1rows]; exact hslen.trans hlen)]
    intro y hy
    rw [hs1rows] at hy
    rw [hs1prev, hsnd y, if_pos (List.mem_range.mpr hy), hs1term, hs1cols]
    exact hpres y hy

/-- Witness for C3: the snapshot property on the fresh 4x2 test screen. -/
theorem snapshot_idempotent_sync_witness :
    testScreen.prevRows.length = testScreen.rows ∧
    SnapshotSpec testEmulator testScreen :=
  ⟨rfl, snapshot_idempotent_sync testEmulator testScreen rfl⟩

/-! ### Row-rendering lemmas (claim C8) -/

theorem decDigits_mem (n : Nat) :
    ∀ c ∈ decDigits n, ∃ d, d < 10 ∧ c = Char.ofNat (48 + d) := by
  induction n using Nat.strong_induction_on with
  | _ n ih =>
    intro c hc
    rw [decDigits] at hc
    by_cases h : n < 10
    · rw [dif_pos h] at hc
      simp at hc
      exact ⟨n, h, hc⟩
    · rw [dif_neg h] at hc
      rcases List.mem_append.mp hc with hc1 | hc2
      · exact ih (n / 10)
          (Nat.div_lt_self (by omega) (by omega)) c hc1
      · simp at hc2
        exact ⟨n % 10, Nat.mod_lt _ (by omega), hc2⟩

theorem digit_char_ok (d : Nat) (hd : d < 10) :
    Char.ofNat (48 + d) ≠ 'm' ∧ Char.ofNat (48 + d) ≠ escChar := by
  interval_cases d <;> exact ⟨by decide, by decide⟩

theorem natStr_ok (n : Nat) : ParamOK (natStr n) := by
  intro c hc
  obtain ⟨d, hd, hcd⟩ := decDigits_mem n c hc
  rw [hcd]
  exact digit_char_ok d hd

theorem paramOK_append (a b : String) (ha : ParamOK a) (hb : ParamOK b) :
    ParamOK (a ++ b) := by
  intro c hc
  rw [String.data_append] at hc
  rcases List.mem_append.mp hc with h | h
  · exact ha c h
  · exact hb c h

theorem paramOK_lit {p : String}
    (h : ∀ c ∈ p.data, c ≠ 'm' ∧ c ≠ escChar) : ParamOK p := h

theorem fgSGR_ok (c : Color) : ParamOK (fgSGR c) := by
  unfold fgSGR
  by_cases h1 : c = DefaultFG
  · rw [if_pos h1]; exact paramOK_lit (by decide)
  rw [if_neg h1]
  by_cases h2 : c < 8
  · rw [if_pos h2]; exact natStr_ok _
  rw [if_neg h2]
  by_cases h3 : c < 16
  · rw [if_pos h3]; exact natStr_ok _
  rw [if_neg h3]
  by_cases h4 : c < 256
  · rw [if_pos h4]
    exact paramOK_append _ _ (paramOK_lit (by decide)) (natStr_ok _)
  · rw [if_neg h4]
    exact paramOK_append _ _
      (paramOK_append _ _
        (paramOK_append _ _
          (paramOK_append _ _
            (paramOK_append _ _ (paramOK_lit (by decide)) (natStr_ok _))
            (paramOK_lit (by decide)))
          (natStr_ok _))
        (paramOK_lit (by decide)))
      (natStr_ok _)

theorem bgSGR_ok (c : Color) : ParamOK (bgSGR c) := by
  unfold bgSGR
  by_cases h1 : c = DefaultBG
  · rw [if_pos h1]; exact paramOK_lit (by decide)
  rw [if_neg h1]
  by_cases h2 : c < 8
  · rw [if_pos h2]; exact natStr_ok _
  rw [if_neg h2]
  by_cases h3 : c < 16
  · rw [if_pos h3]; exact natStr_ok _
  rw [if_neg h3]
  by_cases h4 : c < 256
  · rw [if_pos h4]
    exact paramOK_append _ _ (paramOK_lit (by decide)) (natStr_ok _)
  · rw [if_neg h4]
    exact paramOK_append _ _
      (paramOK_append _ _
        (paramOK_append _ _
          (paramOK_append _ _
            (paramOK_append _ _ (paramOK_lit (by decide)) (natStr_ok _))
            (paramOK_lit (by decide)))
          (natStr_ok _))
        (paramOK_lit (by decide)))
      (natStr_ok _)

theorem sgrParams_ok (cur tgt : Style) :
    ∀ p ∈ sgrParams cur tgt, ParamOK p := by
  intro p hp
  simp only [sgrParams, List.mem_append] at hp
  rcases hp with ((((h | h) | h) | h) | h) | h <;>
    split at h <;> simp_all <;>
    first
    | exact fgSGR_ok _
    | exact bgSGR_ok _
    | exact paramOK_lit (by decide)

theorem joinParams_ok (ps : List String) (h : ∀ p ∈ ps, ParamOK p) :
    ∀ c ∈ (joinParams ps).data, c ≠ 'm' ∧ c ≠ escChar := by
  induction ps with
  | nil => intro c hc; simp [joinParams] at hc
  | cons p rest ih =>
    cases rest with
    | nil =>
      intro c hc
      exact h p (by simp) c (by simpa [joinParams] using hc)
    | cons q t =>
      intro c hc
      rw [show joinParams (p :: q :: t) = p ++ ";" ++ joinParams (q :: t) from
        rfl, String.data_append, String.data_append] at hc
      rcases List.mem_append.mp hc with hsub | hsub
      · rcases List.mem_append.mp hsub with hsub2 | hsub2
        · exact h p (by simp) c hsub2
        · have : c = ';' := by simpa using hsub2
          rw [this]
          exact ⟨by decide, by decide⟩
      · exact ih (fun r hr => h r (List.mem_cons_of_mem p hr)) c hsub

theorem dropToM_append (l1 l2 : List Char) (h : 'm' ∉ l1) :
    dropToM (l1 ++ 'm' :: l2) = some l2 := by
  induction l1 with
  | nil => simp [dropToM]
  | cons a t ih =>
    have ha : a ≠ 'm' := fun hn => h (hn ▸ List.mem_cons_self a t)
    rw [List.cons_append, dropToM, if_neg ha]
    exact ih (fun hm => h (List.mem_cons_of_mem a hm))

theorem strip_nil : stripANSIChars [] = [] := by
  rw [stripANSIChars]

theorem strip_cons_notesc (c : Char) (t : List Char) (hc : c ≠ escChar) :
    stripANSIChars (c :: t) = c :: stripANSIChars t := by
  rw [stripANSIChars]
  simp [hc]

theorem strip_esc_seq (ps rest : List Char) (hm : 'm' ∉ ps) :
    stripANSIChars (escChar :: '[' :: (ps ++ 'm' :: rest)) =
      stripANSIChars rest := by
  rw [stripANSIChars]
  have hd : dropToM (('[' :: (ps ++ 'm' :: rest)).tail) = some rest := by
    simpa using dropToM_append ps rest hm
  rw [if_pos ⟨rfl, rfl⟩]
  split
  · next r1 heq =>
    cases hd.symm.trans heq
    rfl
  · next heq =>
    exact Option.noConfusion (hd.symm.trans heq)

theorem styleEscape_data (ps : List String) :
    (styleEscape ps).data = escChar :: '[' :: ((joinParams ps).data ++ ['m']) := by
  simp [styleEscape, String.data_append, String.singleton]

/-- Stripping the rendered cell scan yields exactly the displayed runes,
for cells that do not themselves display the escape character. -/
theorem strip_renderLoop (cells : List Cell)
    (hesc : ∀ c ∈ cells, displayChar c ≠ escChar) :
    ∀ (cur : Style) (styled : Bool) (tail : List Char),
      stripANSIChars ((renderLoop cur styled cells).1.data ++ tail) =
        cells.map displayChar ++ stripANSIChars tail := by
  induction cells with
  | nil =>
    intro cur styled tail
    simp [renderLoop]
  | cons c rest ih =>
    intro cur styled tail
    have hc : displayChar c ≠ escChar := hesc c (List.mem_cons_self c rest)
    have hrest : ∀ x ∈ rest, displayChar x ≠ escChar :=
      fun x hx => hesc x (List.mem_cons_of_mem c hx)
    by_cases ht : cellStyle c = cur
    · have hout : (renderLoop cur styled (c :: rest)).1 =
          String.singleton (displayChar c) ++ (renderLoop cur styled rest).1 := by
        simp [renderLoop, ht]
      rw [hout, String.data_append,
        show (String.singleton (displayChar c)).data = [displayChar c] from rfl]
      simp only [List.cons_append, List.nil_append, List.append_assoc]
      rw [strip_cons_notesc _ _ hc, ih hrest cur styled tail]
      simp
    · by_cases hps : sgrParams cur (cellStyle c) = []
      · have hout : (renderLoop cur styled (c :: rest)).1 =
            String.singleton (displayChar c) ++
              (renderLoop (cellStyle c)
                (styled || sgrParams cur (cellStyle c) ≠ []) rest).1 := by
          simp [renderLoop, ht, hps]
        rw [hout, String.data_append,
          show (String.singleton (displayChar c)).data = [displayChar c] from rfl]
        simp only [List.cons_append, List.nil_append, List.append_assoc]
        rw [strip_cons_notesc _ _ hc, ih hrest _ _ tail]
        simp
      · have hm : 'm' ∉ (joinParams (sgrParams cur (cellStyle c))).data :=
          fun hmem =>
            (joinParams_ok _ (sgrParams_ok cur (cellStyle c)) 'm' hmem).1 rfl
        have hout : (renderLoop cur styled (c :: rest)).1 =
            styleEscape (sgrParams cur (cellStyle c)) ++
              String.singleton (displayChar c) ++
              (renderLoop (cellStyle c)
                (styled || sgrParams cur (cellStyle c) ≠ []) rest).1 := by
          simp [renderLoop, ht, hps]
        rw [hout, String.data_append, String.data_append, styleEscape_data,
          show (String.singleton (displayChar c)).data = [displayChar c] from rfl]
        simp only [List.cons_append, List.nil_append, List.append_assoc,
          List.singleton_append]
        rw [strip_esc_seq _ _ hm, strip_cons_notesc _ _ hc, ih hrest _ _ tail]
        simp

/-- A style change always emits at least one SGR parameter. -/
theorem sgrParams_ne_nil (cur tgt : Style) (h : cur ≠ tgt) :
    sgrParams cur tgt ≠ [] := by
  by_cases hr : needReset cur tgt
  · simp [sgrParams, hr]
  · intro hnil
    simp only [sgrParams, hr, if_false, Bool.false_eq_true, if_neg,
      List.append_eq_nil] at hnil
    obtain ⟨⟨⟨⟨⟨_, hb⟩, hi⟩, hu⟩, hfg⟩, hbg⟩ := hnil
    simp only [needReset, Bool.or_eq_true, Bool.and_eq_true,
      Bool.not_eq_true', not_or] at hr
    push_neg at hr
    apply h
    have hb' : (if tgt.bold && !cur.bold then ["1"] else []) = [] := hb
    have hi' : (if tgt.italic && !cur.italic then ["3"] else []) = [] := hi
    have hu' : (if tgt.underline && !cur.underline then ["4"] else []) = [] := hu
    have hfg' : (if tgt.fg != cur.fg then [fgSGR tgt.fg] else []) = [] := hfg
    have hbg' : (if tgt.bg != cur.bg then [bgSGR tgt.bg] else []) = [] := hbg
    have efg : tgt.fg = cur.fg := by
      by_cases hx : tgt.fg = cur.fg
      · exact hx
      · simp [bne_iff_ne, hx] at hfg'
    have ebg : tgt.bg = cur.bg := by
      by_cases hx : tgt.bg = cur.bg
      · exact hx
      · simp [bne_iff_ne, hx] at hbg'
    obtain ⟨cfg, cbg, cbold, cit, cun⟩ := cur
    obtain ⟨tfg, tbg, tbold, tit, tun⟩ := tgt
    simp only at efg ebg hb' hi' hu' hr ⊢
    cases cbold <;> cases tbold <;> cases cit <;> cases tit <;>
      cases cun <;> cases tun <;> simp_all

/-- Re-application after a full reset: when an attribute is dropped, the
emitted parameter list is `0` followed by exactly the parameters that
apply the new style from scratch. -/
theorem sgrParams_reset_reapply (cur tgt : Style)
    (h : needReset cur tgt = true) :
    sgrParams cur tgt = "0" :: sgrParams defaultStyle tgt := by
  have hdef : needReset defaultStyle tgt = false := by
    simp [needReset, defaultStyle]
  simp only [sgrParams, h, hdef]
  simp

/-- The scan's current style after processing a cell list is the last
cell's style (or the initial one for no cells). -/
theorem renderLoop_cur (cells : List Cell) :
    ∀ (cur : Style) (styled : Bool),
      (renderLoop cur styled cells).2.1 =
        cells.foldl (fun _ c => cellStyle c) cur := by
  induction cells with
  | nil => intro cur styled; rfl
  | cons c rest ih =>
    intro cur styled
    by_cases ht : cellStyle c = cur
    · have : (renderLoop cur styled (c :: rest)).2 =
          (renderLoop cur styled rest).2 := by
        simp [renderLoop, ht]
      rw [this, ih]
      simp [List.foldl_cons, ht]
    · have : (renderLoop cur styled (c :: rest)).2 =
          (renderLoop (cellStyle c)
            (styled || sgrParams cur (cellStyle c) ≠ []) rest).2 := by
        simp [renderLoop, ht]
      rw [this, ih]
      simp [List.foldl_cons]

theorem foldl_const_last (f : Cell → Style) :
    ∀ (l : List Cell) (init : Style) (d : Cell), l ≠ [] →
      l.foldl (fun _ c => f c) init = f (l.getD (l.length - 1) d) := by
  intro l
  induction l with
  | nil => intro init d h; exact absurd rfl h
  | cons c rest ih =>
    intro init d _
    cases hr : rest with
    | nil => simp [List.foldl_cons, List.getD]
    | cons q t =>
      subst hr
      rw [List.foldl_cons, ih (f c) d (by simp)]
      simp [List.getD]

/-- If any style is active when the scan ends, some escape was emitted
along the way. -/
theorem renderLoop_styled (cells : List Cell) :
    ∀ (cur : Style) (styled : Bool), (cur ≠ defaultStyle → styled = true) →
      ((renderLoop cur styled cells).2.1 ≠ defaultStyle →
        (renderLoop cur styled cells).2.2 = true) := by
  induction cells with
  | nil =>
    intro cur styled hinv
    exact hinv
  | cons c rest ih =>
    intro cur styled hinv
    by_cases ht : cellStyle c = cur
    · have hstep : (renderLoop cur styled (c :: rest)).2 =
          (renderLoop cur styled rest).2 := by
        simp [renderLoop, ht]
      rw [hstep]
      exact ih cur styled hinv
    · have hstep : (renderLoop cur styled (c :: rest)).2 =
          (renderLoop (cellStyle c)
            (styled || sgrParams cur (cellStyle c) ≠ []) rest).2 := by
        simp [renderLoop, ht]
      rw [hstep]
      refine ih _ _ ?_
      intro _
      have hne : cur ≠ cellStyle c := fun hn => ht hn.symm
      simp [sgrParams_ne_nil cur (cellStyle c) hne]

/-- The reported last non-trivial column is inside the row. -/
theorem lastNonTrivialCol_lt (row : List Cell) (k : Nat)
    (hk : lastNonTrivialCol row = some k) : k < row.length := by
  unfold lastNonTrivialCol at hk
  cases hfind : row.enum.reverse.find? (fun p => cellNonTrivial p.2) with
  | none => rw [hfind] at hk; simp at hk
  | some p =>
    rw [hfind] at hk
    simp at hk
    have hmem : p ∈ row.enum.reverse := List.mem_of_find?_eq_some hfind
    rw [List.mem_reverse] at hmem
    have := List.fst_lt_of_mem_enum hmem
    omega

/-- C8: rendering a row with last non-trivial column `k` scans exactly
columns `0..k` (the stripped text is their displayed runes); a style
change that drops an attribute emits a full reset followed by the
re-application of the still-active attributes; and the trailing reset is
appended exactly when the last scanned cell's style is non-default. -/
theorem render_row_sgr (row : List Cell) (k : Nat)
    (hk : lastNonTrivialCol row = some k)
    (hesc : ∀ c ∈ row, c.char ≠ escChar) : RenderRowSpec row k := by
  have hklt : k < row.length := lastNonTrivialCol_lt row k hk
  have htlen : (row.take (k + 1)).length = k + 1 := by
    rw [List.length_take]
    omega
  have htake : row.take (k + 1) ≠ [] := by
    intro hcontra
    rw [hcontra] at htlen
    simp at htlen
  have hescd : ∀ c ∈ row.take (k + 1), displayChar c ≠ escChar := by
    intro c hc
    have hcc := hesc c (List.mem_of_mem_take hc)
    unfold displayChar
    by_cases h0 : c.char = Char.ofNat 0
    · rw [if_pos h0]; decide
    · rw [if_neg h0]; exact hcc
  have hcur : (renderLoop defaultStyle false (row.take (k + 1))).2.1 =
      cellStyle (row.getD k default) := by
    rw [renderLoop_cur, foldl_const_last _ _ _ default htake]
    have hlen : (row.take (k + 1)).length - 1 = k := by
      simp [List.length_take]
      omega
    rw [hlen]
    have : (row.take (k + 1)).getD k default = row.getD k default := by
      simp [List.getD, List.getElem?_take, Nat.lt_succ_self]
    rw [this]
  have hrend : renderRow row =
      (renderLoop defaultStyle false (row.take (k + 1))).1 ++
        (if cellStyle (row.getD k default) ≠ defaultStyle then resetStr
         else "") := by
    rw [renderRow, hk]
    by_cases hact : cellStyle (row.getD k default) = defaultStyle
    · rw [if_neg (by simpa using hact)]
      have hdec : decide (cellStyle (row.getD k default) ≠ defaultStyle) =
          false := by
        simp only [decide_eq_false_iff_not, ne_eq, not_not]
        exact hact
      have hcond : ((renderLoop defaultStyle false (row.take (k + 1))).2.2 &&
          decide ((renderLoop defaultStyle false (row.take (k + 1))).2.1 ≠
            defaultStyle)) = false := by
        rw [hcur, hdec, Bool.and_false]
      simp only [hcond, Bool.false_eq_true, if_false]
      exact (String.append_empty _).symm
    · rw [if_pos (by simpa using hact)]
      have hsty : (renderLoop defaultStyle false (row.take (k + 1))).2.2 = true :=
        renderLoop_styled _ _ _ (fun hcontra => absurd rfl hcontra)
          (by rw [hcur]; exact hact)
      have hdec : decide (cellStyle (row.getD k default) ≠ defaultStyle) =
          true := by
        simp only [decide_eq_true_eq, ne_eq]
        exact hact
      have hcond : ((renderLoop defaultStyle false (row.take (k + 1))).2.2 &&
          decide ((renderLoop defaultStyle false (row.take (k + 1))).2.1 ≠
            defaultStyle)) = true := by
        rw [hsty, hcur, hdec, Bool.and_true]
      simp only [hcond, if_true]
  refine ⟨?_, fun cur tgt h => sgrParams_reset_reapply cur tgt h, hrend⟩
  rw [hrend]
  by_cases hact : cellStyle (row.getD k default) = defaultStyle
  · rw [if_neg (by simpa using hact), String.append_empty]
    have := strip_renderLoop (row.take (k + 1)) hescd defaultStyle false []
    simpa [strip_nil] using this
  · rw [if_pos (by simpa using hact), String.data_append]
    rw [strip_renderLoop (row.take (k + 1)) hescd defaultStyle false
      resetStr.data]
    have hreset : stripANSIChars resetStr.data = [] := by
      have : resetStr.data = escChar :: '[' :: (['0'] ++ 'm' :: []) := rfl
      rw [this, strip_esc_seq ['0'] [] (by decide), strip_nil]
    rw [hreset]
    simp

/-- Witness for C8: the rendering property of the concrete two-cell row
(a red `h` then a plain `i`), whose last non-trivial column is 1. -/
theorem render_row_sgr_witness :
    lastNonTrivialCol wRow = some 1 ∧
    (∀ c ∈ wRow, c.char ≠ escChar) ∧
    RenderRowSpec wRow 1 :=
  ⟨by decide, by decide, render_row_sgr wRow 1 (by decide) (by decide)⟩

end TmuxAdapter
